import Mathlib

/-!
Verification development for the maze-AI decision-and-learning subsystem.

The JavaScript source is shallowly embedded: pure functions become Lean
functions over `Int` coordinates and exact rationals (`Rat`), the mutable
per-episode objects become explicit state records, and JavaScript numbers
that can hold the value negative infinity are modelled as `WithBot Rat`
(`none` standing for negative infinity; with the positive learning rate and
discount factor used by the agents, negative infinity is absorbing under
the arithmetic that appears in the update rule, which the embedding makes
explicit).  Randomized inputs (random action draws, sampled batches,
injected exploration noise) and the external path oracle are universally
quantified oracle parameters, so every theorem covers all of their
realizations.
-/

set_option maxRecDepth 10000

/-- A grid cell, JavaScript `[x, y]` (row, column). -/
abbrev Cell : Type := Int × Int

/-- A maze, JavaScript 2-D array `maze[x][y]` of 0 (open) / 1 (wall). -/
abbrev Maze : Type := List (List Nat)

/-- Shared `this.width` / `this.height` fields of the agent classes. -/
structure Dims where
  width : Int
  height : Int

/-- JavaScript `maze[x][y]`: `some v` when both indices are in range,
`none` when the access would yield `undefined`. -/
def cellAt (maze : Maze) (x y : Int) : Option Nat :=
  if 0 ≤ x ∧ 0 ≤ y then
    (maze.get? x.toNat).bind fun row => row.get? y.toNat
  else none

/-- JavaScript `Math.max` on two (non-NaN) numbers. -/
def jsMax (a b : Rat) : Rat := if a ≤ b then b else a

/-- JavaScript `Math.min` on two (non-NaN) numbers. -/
def jsMin (a b : Rat) : Rat := if a ≤ b then a else b

/-- JavaScript `String.split` with a one-character separator. -/
def jsSplit (s : String) (sep : Char) : List String :=
  (s.toList.splitOn sep).map fun cs => String.mk cs

/-- JavaScript `Math.max` where either side may be negative infinity. -/
def jsMaxBot (a b : WithBot Rat) : WithBot Rat :=
  match a, b with
  | none, b => b
  | a, none => a
  | some x, some y => some (jsMax x y)

namespace QLearningAgent

/-- `this.actions`: 0=up, 1=right, 2=down, 3=left (unit offset vectors). -/
def actions : Fin 4 → Int × Int
  | 0 => (-1, 0)
  | 1 => (0, 1)
  | 2 => (1, 0)
  | 3 => (0, -1)

/-- `QLearningAgent.isValidMove(state, action, maze)` (the
`HybridMazeAgent` copy is line-for-line identical). -/
def isValidMove (d : Dims) (state : Cell) (action : Fin 4) (maze : Maze) : Bool :=
  let dx := (actions action).1
  let dy := (actions action).2
  let newX := state.1 + dx
  let newY := state.2 + dy
  decide (0 ≤ newX) && decide (newX < d.height) &&
    decide (0 ≤ newY) && decide (newY < d.width) &&
    (cellAt maze newX newY == some 0)

/-- `QLearningAgent.validActionsFromState(state, maze)`. -/
def validActionsFromState (d : Dims) (state : Cell) (maze : Maze) : List (Fin 4) :=
  (List.finRange 4).filter fun a => isValidMove d state a maze

/-- `QLearningAgent.getReward(oldState, newState, maze, isGameOver, isWin)`. -/
def getReward (d : Dims) (oldState newState : Cell) (isGameOver isWin : Bool) : Rat :=
  if isWin then 100
  else if isGameOver then -50
  else
    let goalX := d.height - 2
    let goalY := d.width - 2
    let oldDistance : Rat := ((oldState.1 - goalX).natAbs + (oldState.2 - goalY).natAbs : Nat)
    let newDistance : Rat := ((newState.1 - goalX).natAbs + (newState.2 - goalY).natAbs : Nat)
    let reward : Rat := -1
    if newDistance < oldDistance then reward + 2
    else if oldDistance < newDistance then reward - 1
    else reward

/-- Sparse Q-table, lazily populated at 0: JavaScript keys `"x,y"` are in
bijection with cells, so the table is a total function defaulting to 0. -/
abbrev QTable : Type := Cell → Fin 4 → Rat

/-- The bootstrap term of `QLearningAgent.updateQValue`:
`Math.max(...)` over the four entries
`isValidMove(newState, a, maze) ? Q(newState, a) : -Infinity`,
folded from negative infinity (`⊥`). -/
def maxFutureQ (d : Dims) (table : QTable) (newState : Cell) (maze : Maze) :
    WithBot Rat :=
  ([0, 1, 2, 3] : List (Fin 4)).foldl
    (fun m a =>
      jsMaxBot m (if isValidMove d newState a maze then ((table newState a : Rat) : WithBot Rat) else ⊥))
    ⊥

/-- The value written by `QLearningAgent.updateQValue`:
`currentQ + learningRate * (reward + gamma * maxFutureQ - currentQ)`.
When `maxFutureQ` is negative infinity the JavaScript float arithmetic
(with the strictly positive `learningRate` and `gamma` the agent is
constructed with) keeps the result at negative infinity. -/
def newQ (learningRate gamma currentQ reward : Rat) (m : WithBot Rat) : WithBot Rat :=
  match m with
  | none => ⊥
  | some mv => ((currentQ + learningRate * (reward + gamma * mv - currentQ) : Rat) : WithBot Rat)

/-- `QLearningAgent.updateQValue(oldState, action, newState, reward, maze)`:
the table after the single `setQValue` write.  Entries are reported in
`WithBot Rat` so that the written value can be negative infinity. -/
def updateQValue (d : Dims) (learningRate gamma : Rat) (table : QTable)
    (oldState : Cell) (action : Fin 4) (newState : Cell) (reward : Rat)
    (maze : Maze) : Cell → Fin 4 → WithBot Rat :=
  fun p b =>
    if p = oldState ∧ b = action then
      newQ learningRate gamma (table oldState action) reward (maxFutureQ d table newState maze)
    else ((table p b : Rat) : WithBot Rat)

/-- The epsilon update of `QLearningAgent.finishGame`:
`if (epsilon > epsilonMin) epsilon *= epsilonDecay`. -/
def finishGameEpsilon (epsilon epsilonMin epsilonDecay : Rat) : Rat :=
  if epsilonMin < epsilon then epsilon * epsilonDecay else epsilon

end QLearningAgent

namespace HybridMazeAgent

/-- `HybridMazeAgent.getReward(oldState, newState, maze, isGameOver, isWin)`
(`visited` is the set of cell keys the agent has visited this episode). -/
def getReward (d : Dims) (visited : List Cell) (oldState newState : Cell)
    (isGameOver isWin : Bool) : Rat :=
  if isWin then 100
  else if isGameOver then -50
  else
    let goalX := d.height - 2
    let goalY := d.width - 2
    let oldDistance : Rat := ((oldState.1 - goalX).natAbs + (oldState.2 - goalY).natAbs : Nat)
    let newDistance : Rat := ((newState.1 - goalX).natAbs + (newState.2 - goalY).natAbs : Nat)
    let reward : Rat := -1/2
    let reward :=
      if newDistance < oldDistance then reward + 2
      else if oldDistance < newDistance then reward - 2
      else reward - 1/2
    if newState ∈ visited then reward else reward + 3/2

/-- The bootstrap term of `HybridMazeAgent.updateQValue`: fold of
`Math.max` over the valid actions starting from negative infinity,
then `if (maxFutureQ === -Infinity) maxFutureQ = 0`. -/
def maxFutureQ (d : Dims) (table : QLearningAgent.QTable) (newState : Cell)
    (maze : Maze) : Rat :=
  match QLearningAgent.maxFutureQ d table newState maze with
  | none => 0
  | some v => v

/-- `HybridMazeAgent.updateQValue`: no write at all unless
`currentStrategy === "qlearning"`; otherwise one `setQValue` write with
the 0-bootstrap temporal-difference value.  (`getStateKey` is injective
on in-range cells, so the table is kept cell-indexed.) -/
def updateQValue (d : Dims) (currentStrategy : String) (learningRate gamma : Rat)
    (table : QLearningAgent.QTable) (oldState : Cell) (action : Fin 4)
    (newState : Cell) (reward : Rat) (maze : Maze) : QLearningAgent.QTable :=
  if currentStrategy ≠ "qlearning" then table
  else fun p b =>
    if p = oldState ∧ b = action then
      table oldState action +
        learningRate * (reward + gamma * maxFutureQ d table newState maze - table oldState action)
    else table p b

/-- The epsilon update of `HybridMazeAgent.finishGame`:
`decayRate = isLargeMaze ? 0.99 : epsilonDecay`, then the guarded multiply. -/
def finishGameEpsilon (isLargeMaze : Bool) (epsilon epsilonMin epsilonDecay : Rat) : Rat :=
  let decayRate := if isLargeMaze then (99/100 : Rat) else epsilonDecay
  if epsilonMin < epsilon then epsilon * decayRate else epsilon

/-- The per-episode mutable fields of `HybridMazeAgent` that the strategy
switch and the pathfinding replay read and write. -/
structure Agent where
  width : Int
  height : Int
  isLargeMaze : Bool
  epsilon : Rat
  gamesPlayed : Nat
  successfulGames : Nat
  position : Cell
  path : List Cell
  moves : Nat
  knownSolution : Option (List Cell)
  solutionSteps : Nat
  currentStrategy : String

/-- The result record returned by the move functions. -/
structure MoveResult where
  position : Cell
  moves : Nat
  isValid : Bool
  strategy : String

/-- `HybridMazeAgent.selectStrategy(maze)`. -/
def selectStrategy (ag : Agent) : String :=
  if ag.isLargeMaze then "pathfinding"
  else
    let successRate : Rat :=
      if 0 < ag.gamesPlayed then (ag.successfulGames : Rat) / (ag.gamesPlayed : Rat) else 0
    if 20 < ag.gamesPlayed ∧ 4/5 < successRate ∧ ag.epsilon < 1/10 then "pathfinding"
    else "qlearning"

/-- `HybridMazeAgent.pathfindingMove(maze)`.  `oracle` is the external
path oracle `fastSolver.solveMazeAStar(maze, position)` (spec section 6);
`none` is its explicit no-path signal. -/
def pathfindingMove (oracle : Maze → Cell → Option (List Cell)) (ag : Agent)
    (maze : Maze) : MoveResult × Agent :=
  let ag :=
    if ag.knownSolution = none ∨ ag.solutionSteps = 0 then
      { ag with knownSolution := oracle maze ag.position, solutionSteps := 0 }
    else ag
  match ag.knownSolution with
  | some sol =>
      if ag.solutionSteps < sol.length - 1 then
        let steps := ag.solutionSteps + 1
        let nextPos := sol.getD steps ag.position
        let ag := { ag with
          solutionSteps := steps
          position := nextPos
          path := ag.path ++ [nextPos]
          moves := ag.moves + 1 }
        (⟨nextPos, ag.moves, true, "pathfinding"⟩, ag)
      else (⟨ag.position, ag.moves, false, "pathfinding"⟩, ag)
  | none => (⟨ag.position, ag.moves, false, "pathfinding"⟩, ag)

/-- `HybridMazeAgent.qLearningMove(maze)` given the action the
(partly randomized) `chooseAction` returned. -/
def qLearningMove (ag : Agent) (chosenAction : Fin 4) (maze : Maze) :
    MoveResult × Agent :=
  let dx := (QLearningAgent.actions chosenAction).1
  let dy := (QLearningAgent.actions chosenAction).2
  let newPosition : Cell := (ag.position.1 + dx, ag.position.2 + dy)
  if QLearningAgent.isValidMove ⟨ag.width, ag.height⟩ ag.position chosenAction maze then
    let ag := { ag with
      position := newPosition
      path := ag.path ++ [newPosition]
      moves := ag.moves + 1 }
    (⟨newPosition, ag.moves, true, "qlearning"⟩, ag)
  else (⟨ag.position, ag.moves, false, "qlearning"⟩, ag)

/-- `HybridMazeAgent.move(maze)`: re-evaluate the strategy, then dispatch. -/
def move (oracle : Maze → Cell → Option (List Cell)) (chosenAction : Fin 4)
    (ag : Agent) (maze : Maze) : MoveResult × Agent :=
  let ag := { ag with currentStrategy := selectStrategy ag }
  if ag.currentStrategy = "pathfinding" then pathfindingMove oracle ag maze
  else qLearningMove ag chosenAction maze

end HybridMazeAgent

namespace MCTS

/-- The root-decision loop of `mctsPlan`: given the per-(state,action)
total values `q` and visit counts `n` accumulated by the simulation
passes (whatever the random rollouts produced), pick the first action
maximizing the mean value, starting from `bestV = -Infinity`; return
action 0 when the root has no valid action. -/
def bestRootAction (actionList : List (Fin 4)) (q : Fin 4 → Rat) (n : Fin 4 → Nat) :
    Fin 4 :=
  match actionList with
  | [] => 0
  | a0 :: _ =>
      (actionList.foldl
        (fun best a =>
          let v : WithBot Rat := if 0 < n a then ((q a / n a : Rat) : WithBot Rat) else ⊥
          if best.2 < v then (a, v) else best)
        ((a0, ⊥) : Fin 4 × WithBot Rat)).1

/-- `mctsPlan` at the root: the valid-action set is
`validActionsFn(state, maze)` as supplied by the calling agent. -/
def planRootAction (d : Dims) (state : Cell) (maze : Maze)
    (q : Fin 4 → Rat) (n : Fin 4 → Nat) : Fin 4 :=
  bestRootAction (QLearningAgent.validActionsFromState d state maze) q n

end MCTS

namespace DynamicMazeElements

/-- `MovingWall` fields read by the occupancy footprint. -/
structure MovingWall where
  position : Cell
  direction : Int
  length : Nat

/-- `RotatingSection` fields read by the occupancy footprint.  The angle
is kept in {0, 90, 180, 270} by `update` (`(angle + 90) % 360`). -/
structure RotatingSection where
  center : Cell
  radius : Int
  angle : Nat

/-- The `DynamicMazeElements` fields consulted by `isBlocked`
(temporary-wall keys `"x,y"` are in bijection with cells). -/
structure Elems where
  width : Int
  height : Int
  movingWalls : List MovingWall
  rotatingSections : List RotatingSection
  temporaryWalls : List Cell

/-- `getMovingWallCells(wall)`: a run of `wall.length || 2` cells from
the wall position along its axis (`direction % 2`), clipped to the
interior of the arena. -/
def getMovingWallCells (e : Elems) (w : MovingWall) : List Cell :=
  let len := if w.length = 0 then 2 else w.length
  let dir := w.direction.tmod 2
  (List.range len).filterMap fun i =>
    let cx := if dir = 1 then w.position.1 + i else w.position.1
    let cy := if dir = 0 then w.position.2 + i else w.position.2
    if 0 < cx ∧ cx < e.height - 1 ∧ 0 < cy ∧ cy < e.width - 1 then some (cx, cy)
    else none

/-- The four fixed offset patterns of `getRotatingSectionCells`. -/
def rotOffsets (radius : Int) : Fin 4 → List (Int × Int)
  | 0 => [(-radius, 0), (radius, 0), (0, -radius), (0, radius)]
  | 1 => [(-radius, -radius), (-radius, radius), (radius, -radius), (radius, radius)]
  | 2 => [(-radius, 0), (radius, 0), (0, -radius), (0, radius)]
  | 3 => [(-radius, -radius), (-radius, radius), (radius, -radius), (radius, radius)]

/-- `getRotatingSectionCells(section)`: pattern index
`Math.floor((angle % 360) / 90) % 4`, clipped to the interior. -/
def getRotatingSectionCells (e : Elems) (s : RotatingSection) : List Cell :=
  let idx : Fin 4 := ⟨s.angle % 360 / 90 % 4, Nat.mod_lt _ (by norm_num)⟩
  (rotOffsets s.radius idx).filterMap fun off =>
    let x := s.center.1 + off.1
    let y := s.center.2 + off.2
    if 0 < x ∧ x < e.height - 1 ∧ 0 < y ∧ y < e.width - 1 then some (x, y)
    else none

/-- `DynamicMazeElements.isBlocked(x, y)`. -/
def isBlocked (e : Elems) (x y : Int) : Bool :=
  e.movingWalls.any (fun w => (getMovingWallCells e w).any fun c => c.1 == x && c.2 == y) ||
  e.rotatingSections.any (fun s => (getRotatingSectionCells e s).any fun c => c.1 == x && c.2 == y) ||
  decide ((x, y) ∈ e.temporaryWalls)

end DynamicMazeElements

/-- An inventory `ExperienceRecord`-style item of the enhanced modes. -/
structure Item where
  type : String
  value : Rat
  keyType : String

namespace EnhancedAgentState

/-- The `EnhancedAgentState` fields read or written by `calculateReward`,
`getEnergyCost` and `performAction` (`exploredCells` keys `"x,y"` are in
bijection with cells). -/
structure State where
  gameMode : String
  width : Int
  height : Int
  position : Cell
  path : List Cell
  moves : Nat
  health : Rat
  maxHealth : Rat
  energy : Rat
  maxEnergy : Rat
  abilities : List String
  powerups : List String
  inventory : List Item
  keys : List String
  exploredCells : List Cell
  stepsWithoutProgress : Nat
  primaryGoal : Cell

/-- `EnhancedAgentState.getEnergyCost(action)`. -/
def getEnergyCost (st : State) (action : String) : Rat :=
  let cost : Rat := 1
  let cost := if "dash" ∈ st.abilities ∧ action = "dash" then 3 else cost
  let cost := if "jump" ∈ st.abilities ∧ action = "jump" then 2 else cost
  if "efficiency" ∈ st.powerups then cost * (1/2) else cost

/-- The `gameEvents` record produced by `DynamicMazeElements.update`. -/
structure GameEvents where
  foundFood : Bool
  foundKey : Bool
  hitTrap : Bool
  collectibleTaken : Bool
  blockedOtherAgent : Bool
  wasBlocked : Bool
  adaptedToChange : Bool
  caughtByMovingWall : Bool

/-- `EnhancedAgentState.calculateReward(action, newPosition, maze,
dynamicElements, gameEvents)`: returns the scalar reward and the mutated
state (energy, health, stagnation counter). -/
def calculateReward (st : State) (action : String) (newPosition : Cell)
    (maze : Maze) (gameEvents : GameEvents) : Rat × State :=
  let reward : Rat := 0
  let reward := reward - 1/2
  let energyCost := getEnergyCost st action
  let st := { st with energy := jsMax 0 (st.energy - energyCost) }
  let reward := reward - energyCost * (1/20)
  let reward := if st.health ≤ 20 then reward - 3 else reward
  let reward := if st.energy ≤ 10 then reward - 2 else reward
  let oldDistance : Rat :=
    ((st.position.1 - st.primaryGoal.1).natAbs + (st.position.2 - st.primaryGoal.2).natAbs : Nat)
  let newDistance : Rat :=
    ((newPosition.1 - st.primaryGoal.1).natAbs + (newPosition.2 - st.primaryGoal.2).natAbs : Nat)
  let (reward, st) :=
    if newDistance < oldDistance then
      let progressBonus := jsMax 3 (15 - newDistance * (1/2))
      (reward + progressBonus, { st with stepsWithoutProgress := 0 })
    else if newDistance = oldDistance then (reward - 1/10, st)
    else (reward - 1, { st with stepsWithoutProgress := st.stepsWithoutProgress + 1 })
  let reward :=
    if 15 < st.stepsWithoutProgress then
      reward - (st.stepsWithoutProgress : Rat) * (1/2)
    else reward
  let (reward, st) :=
    if st.gameMode = "fog" then
      let reward := if newPosition ∈ st.exploredCells then reward else reward + 8
      let unknownNeighbors :=
        ((List.range 3).product (List.range 3)).countP fun ij =>
          let checkX := newPosition.1 + (ij.1 : Int) - 1
          let checkY := newPosition.2 + (ij.2 : Int) - 1
          decide (0 ≤ checkX ∧ checkX < (maze.length : Int) ∧ 0 ≤ checkY ∧
            checkY < ((maze.headD []).length : Int) ∧ (checkX, checkY) ∉ st.exploredCells)
      (reward + (unknownNeighbors : Rat) * (3/2), st)
    else if st.gameMode = "survival" then
      let (reward, st) :=
        if gameEvents.foundFood then
          (reward + 20, { st with health := jsMin st.maxHealth (st.health + 25) })
        else (reward, st)
      let reward := if gameEvents.foundKey then reward + 15 else reward
      let (reward, st) :=
        if gameEvents.hitTrap then (reward - 30, { st with health := st.health - 20 })
        else (reward, st)
      (reward, st)
    else if st.gameMode = "competitive" then
      let reward := if gameEvents.collectibleTaken then reward + 25 else reward
      let reward := if gameEvents.blockedOtherAgent then reward + 10 else reward
      let reward := if gameEvents.wasBlocked then reward - 5 else reward
      (reward, st)
    else if st.gameMode = "dynamic" then
      let reward := if gameEvents.adaptedToChange then reward + 8 else reward
      let reward := if gameEvents.caughtByMovingWall then reward - 15 else reward
      (reward, st)
    else (reward, st)
  let reward :=
    if newPosition = st.primaryGoal then
      let efficiency := jsMax 0 (1000 - (st.moves : Rat)) / 10
      reward + 100 + efficiency
    else reward
  let reward := if st.health ≤ 0 ∨ st.energy ≤ 0 then reward - 100 else reward
  (reward, st)

end EnhancedAgentState

namespace NeuralMazeAgent

/-- The four move directions of `getValidActions` / `performAction`,
with the dash and jump action names derived from the move name. -/
def nDirections : List (String × String × String × Int × Int) :=
  [("move_up", "dash_up", "jump_up", -1, 0),
   ("move_right", "dash_right", "jump_right", 0, 1),
   ("move_down", "dash_down", "jump_down", 1, 0),
   ("move_left", "dash_left", "jump_left", 0, -1)]

/-- One direction block of `getValidActions`: the move action when the
unit-step target is in-bounds, open, and not dynamically blocked; plus
the dash / jump variants gated on abilities and energy. -/
def directionBlock (d : Dims) (st : EnhancedAgentState.State)
    (dyn : DynamicMazeElements.Elems) (maze : Maze)
    (entry : String × String × String × Int × Int) : List String :=
  let (mv, dsh, jmp, dx, dy) := entry
  let newX := st.position.1 + dx
  let newY := st.position.2 + dy
  if (0 ≤ newX ∧ newX < d.height ∧ 0 ≤ newY ∧ newY < d.width) ∧
      cellAt maze newX newY = some 0 ∧ DynamicMazeElements.isBlocked dyn newX newY = false then
    [mv] ++ (if "dash" ∈ st.abilities ∧ 3 ≤ st.energy then [dsh] else []) ++
      (if "jump" ∈ st.abilities ∧ 2 ≤ st.energy then [jmp] else [])
  else []

/-- `NeuralMazeAgent.getValidActions(maze)`. -/
def getValidActions (d : Dims) (st : EnhancedAgentState.State)
    (dyn : DynamicMazeElements.Elems) (maze : Maze) : List String :=
  (nDirections.foldl (fun acc entry => acc ++ directionBlock d st dyn maze entry) []) ++
    ["wait", "rest"] ++ (if 0 < st.inventory.length then ["use_item"] else [])

/-- `NeuralMazeAgent.useItem()`: pop the last inventory entry and apply
its effect. -/
def useItem (st : EnhancedAgentState.State) : EnhancedAgentState.State :=
  match st.inventory.getLast? with
  | none => st
  | some item =>
      let st := { st with inventory := st.inventory.dropLast }
      if item.type = "health_potion" then
        { st with health := jsMin st.maxHealth (st.health + item.value) }
      else if item.type = "energy_potion" then
        { st with energy := jsMin st.maxEnergy (st.energy + item.value) }
      else if item.type = "key" then
        { st with keys := if item.keyType ∈ st.keys then st.keys else st.keys ++ [item.keyType] }
      else st

/-- The direction table of `performAction` (`directions[direction] || [0,0]`). -/
def directionVector (direction : Option String) : Int × Int :=
  match direction with
  | some "up" => (-1, 0)
  | some "right" => (0, 1)
  | some "down" => (1, 0)
  | some "left" => (0, -1)
  | _ => (0, 0)

/-- `NeuralMazeAgent.performAction(action, maze)`: returns the `success`
flag and the mutated agent state.  The movement branch additionally
requires `energy >= energyCost`; on failure the special-action switch
runs and the position is left unchanged. -/
def performAction (d : Dims) (dyn : DynamicMazeElements.Elems)
    (st : EnhancedAgentState.State) (action : String) (maze : Maze) :
    Bool × EnhancedAgentState.State :=
  let x := st.position.1
  let y := st.position.2
  let parts := jsSplit action '_'
  let actionType := parts.headD ""
  let direction := parts.get? 1
  let (newX, newY, energyCost) :=
    match direction with
    | none => (x, y, (1 : Rat))
    | some _ =>
        let (dx, dy) := directionVector direction
        if actionType = "move" then (x + dx, y + dy, (1 : Rat))
        else if actionType = "dash" then (x + dx * 2, y + dy * 2, (3 : Rat))
        else if actionType = "jump" then (x + dx, y + dy, (2 : Rat))
        else (x, y, (1 : Rat))
  if (0 ≤ newX ∧ newX < d.height ∧ 0 ≤ newY ∧ newY < d.width) ∧
      cellAt maze newX newY = some 0 ∧ DynamicMazeElements.isBlocked dyn newX newY = false ∧
      energyCost ≤ st.energy then
    (true, { st with
      position := (newX, newY)
      path := st.path ++ [(newX, newY)]
      energy := jsMax 0 (st.energy - energyCost) })
  else
    let st :=
      if action = "wait" then { st with energy := jsMin st.maxEnergy (st.energy + 1/2) }
      else if action = "rest" then { st with energy := jsMin st.maxEnergy (st.energy + 5) }
      else if action = "use_item" then useItem st
      else st
    (false, st)

/-- The linear Q head: one weight vector and one bias per action. -/
structure LinearHead where
  weights : List (List Rat)
  biases : List Rat

/-- `NeuralMazeAgent.forwardPass(state, actionIndex)`:
`Q(s, a) = b_a + w_a · s` over the common prefix, plus the exploration
noise `(Math.random() - 0.5) * epsilon * 0.05` injected while training
(0 when not training), supplied here as an oracle value. -/
def forwardPass (head : LinearHead) (state : List Rat) (actionIndex : Nat)
    (noise : Rat) : Rat :=
  let w := head.weights.getD actionIndex []
  let b := head.biases.getD actionIndex 0
  b + (List.zipWith (fun wi si => wi * si) w state).sum + noise

/-- `NeuralMazeAgent.updateWeights(state, actionIndex, error)`:
`w_a[i] += lr * error * state[i]` for `i < min(|state|, |w_a|)` and
`b_a += lr * error`; every other action is untouched. -/
def updateWeights (learningRate : Rat) (head : LinearHead) (state : List Rat)
    (actionIndex : Nat) (error : Rat) : LinearHead :=
  let w := head.weights.getD actionIndex []
  let w' := w.mapIdx fun i wi =>
    if i < state.length then wi + learningRate * error * state.getD i 0 else wi
  { weights := head.weights.set actionIndex w'
    biases := head.biases.set actionIndex
      (head.biases.getD actionIndex 0 + learningRate * error) }

/-- An `ExperienceRecord` of the replay buffer. -/
structure Experience where
  state : List Rat
  action : Nat
  reward : Rat
  nextState : List Rat
  terminal : Bool

/-- The 15-entry action space of `NeuralMazeAgent`. -/
def numActions : Nat := 15

/-- One sample of the `trainOnBatch` loop: compute the temporal-difference
target (`reward` when terminal, else `reward + gamma * max_a Q(s', a)`)
and apply `updateWeights` with `error = targetQ - currentQ`.  `noiseCur`
and `noiseNext` are the training-time exploration-noise draws of the
forward passes. -/
def trainSample (learningRate gamma : Rat) (head : LinearHead) (e : Experience)
    (noiseCur : Rat) (noiseNext : Nat → Rat) : LinearHead :=
  let currentQ := forwardPass head e.state e.action noiseCur
  let targetQ :=
    if e.terminal then e.reward
    else
      let maxNextQ : WithBot Rat :=
        (List.range numActions).foldl
          (fun m a => jsMaxBot m ((forwardPass head e.nextState a (noiseNext a) : Rat) : WithBot Rat)) ⊥
      e.reward + gamma * maxNextQ.unbot' 0
  updateWeights learningRate head e.state e.action (targetQ - currentQ)

/-- The epsilon decay at the end of `NeuralMazeAgent.trainOnBatch`:
`if (epsilon > epsilonMin) epsilon *= epsilonDecay`. -/
def decayEpsilon (epsilon epsilonMin epsilonDecay : Rat) : Rat :=
  if epsilonMin < epsilon then epsilon * epsilonDecay else epsilon

/-- `NeuralMazeAgent.trainOnBatch()` on a sampled batch (the uniform
random draws are the `batch` oracle): the gradient updates, then the
epsilon decay.  Returns the new head and the new epsilon. -/
def trainOnBatch (learningRate gamma : Rat) (head : LinearHead)
    (batch : List (Experience × Rat × (Nat → Rat)))
    (epsilon epsilonMin epsilonDecay : Rat) : LinearHead × Rat :=
  let head := batch.foldl
    (fun h sample => trainSample learningRate gamma h sample.1 sample.2.1 sample.2.2) head
  (head, decayEpsilon epsilon epsilonMin epsilonDecay)

/-- `NeuralMazeAgent.storeExperience(...)`: push, then evict the oldest
record while the buffer exceeds `memorySize`. -/
def storeExperience (memorySize : Nat) (memory : List Experience)
    (e : Experience) : List Experience :=
  let memory := memory ++ [e]
  if memorySize < memory.length then memory.tail else memory

end NeuralMazeAgent

namespace AutoEpsilonScheduler

/-- One entry of the rolling episode history. -/
structure EpRecord where
  win : Bool
  moves : Rat
  reward : Rat

/-- The scheduler state: game mode tag and rolling window. -/
structure Scheduler where
  gameMode : String
  history : List EpRecord

/-- `this.window`. -/
def window : Nat := 20

/-- `AutoEpsilonScheduler.getTargetEnd(mode)`. -/
def getTargetEnd (mode : String) : Rat :=
  if mode = "fog" then 1/10
  else if mode = "dynamic" ∨ mode = "competitive" ∨ mode = "survival" then 2/25
  else 1/20

/-- `AutoEpsilonScheduler.clampDecay(d)`: clamp into [0.9, 0.9999]. -/
def clampDecay (d : Rat) : Rat := jsMin (9999/10000) (jsMax (9/10) d)

/-- `AutoEpsilonScheduler.recordEpisode(ep)`: push, evict the oldest
record when the window overflows. -/
def recordEpisode (s : Scheduler) (ep : EpRecord) : Scheduler :=
  let h := s.history ++ [ep]
  { s with history := if window < h.length then h.tail else h }

/-- The epsilon fields of the agent the scheduler tunes. -/
structure SchedAgent where
  epsilon : Rat
  epsilonMin : Rat
  epsilonDecay : Rat

/-- `AutoEpsilonScheduler.onEpisodeEnd(agent, epSummary)`: record the
episode, then (1) on windowed success at or above 80 percent accelerate
exploitation, (2) on success at or below 10 percent raise exploration,
(3) re-pin `epsilonMin`, (4) clamp and store the decay. -/
def onEpisodeEnd (s : Scheduler) (agent : SchedAgent) (ep : EpRecord) :
    Scheduler × SchedAgent :=
  let s := recordEpisode s ep
  let h := s.history
  let n : Rat := if h.length = 0 then 1 else (h.length : Rat)
  let success : Rat := ((h.filter fun x => x.win).length : Rat) / n
  let eps := agent.epsilon
  let epsMin := agent.epsilonMin
  let decay := agent.epsilonDecay
  let fire1 : Prop := 4/5 ≤ success ∧ window / 2 ≤ h.length
  let agent1 :=
    if fire1 then { agent with epsilon := jsMax epsMin (eps * (9/10)) } else agent
  let decay1 := if fire1 then clampDecay (decay * (97/100)) else decay
  let fire2 : Prop := success ≤ 1/10 ∧ window / 2 ≤ h.length
  let bump : Rat := if s.gameMode = "fog" then 1/20 else 1/10
  let agent2 :=
    if fire2 then { agent1 with epsilon := jsMin (19/20) (eps + bump) } else agent1
  let decay2 := if fire2 then clampDecay ((decay1 + 1) / 2) else decay1
  let agent3 := { agent2 with
    epsilonMin := jsMin agent2.epsilon (jsMax (1/100) (getTargetEnd s.gameMode)) }
  let agent4 := { agent3 with epsilonDecay := clampDecay decay2 }
  (s, agent4)

/-- A winning episode summary. -/
def winEpisode : EpRecord := ⟨true, 10, 100⟩

/-- Feeding one winning episode to the scheduler-plus-agent pair. -/
def onWin (p : Scheduler × SchedAgent) : Scheduler × SchedAgent :=
  onEpisodeEnd p.1 p.2 winEpisode

end AutoEpsilonScheduler

namespace NeuralMazeAgent

/-- `NeuralMazeAgent.checkTerminalConditions()`: win first, then death,
exhaustion, and the move-count timeout `moves > width * height * 2`;
`none` when the episode continues. -/
def checkTerminalConditions (d : Dims) (st : EnhancedAgentState.State) :
    Option String :=
  if st.position = st.primaryGoal then some "win"
  else if st.health ≤ 0 then some "death"
  else if st.energy ≤ 0 then some "exhaustion"
  else if d.width * d.height * 2 < (st.moves : Int) then some "timeout"
  else none

/-- The plain move action names, indexed like the tabular action set. -/
def moveName : Fin 4 → String
  | 0 => "move_up"
  | 1 => "move_right"
  | 2 => "move_down"
  | 3 => "move_left"

/-- One step of the spec scenario for the linear policy: train on a
single experience with the exploration-noise draws at 0 (0 is in the
support of `(Math.random() - 0.5) * epsilon * 0.05`). -/
def terminalStep (learningRate gamma : Rat) (e : Experience) :
    LinearHead → LinearHead :=
  fun h => trainSample learningRate gamma h e 0 (fun _ => 0)

end NeuralMazeAgent

/-- The head of a freshly initialized linear agent for the C8 scenario
counterexample: state size 50, all 15 weight vectors at 3/10 (inside the
Xavier support, since (3/10)^2 < 6/50), all biases at 0. -/
def c8Head : NeuralMazeAgent.LinearHead :=
  { weights := List.replicate 15 (List.replicate 50 (3/10))
    biases := List.replicate 15 0 }

/-- The identical terminal experience of the C8 scenario:
action 0, reward 10, terminal, on an all-ones state vector. -/
def c8Exp : NeuralMazeAgent.Experience :=
  { state := List.replicate 50 1
    action := 0
    reward := 10
    nextState := List.replicate 50 1
    terminal := true }

/-- The `gameEvents` record of a tick on which nothing happened. -/
def noEvents : EnhancedAgentState.GameEvents :=
  ⟨false, false, false, false, false, false, false, false⟩

/-- A 5-by-5 maze with the generator contract shape: walls on the
border, open start (1,1) and goal (3,3). -/
def maze5 : Maze :=
  [[1, 1, 1, 1, 1],
   [1, 0, 0, 0, 1],
   [1, 0, 1, 0, 1],
   [1, 0, 0, 0, 1],
   [1, 1, 1, 1, 1]]

/-- The C1 counterexample state: classic mode on the 5-by-5 maze, full
health and energy, but already 51 moves in (past the timeout bound
2 * 5 * 5 = 50), one step away from making progress toward the goal. -/
def c1TimeoutState : EnhancedAgentState.State :=
  { gameMode := "classic"
    width := 5
    height := 5
    position := (1, 1)
    path := [(1, 1)]
    moves := 51
    health := 100
    maxHealth := 100
    energy := 100
    maxEnergy := 100
    abilities := ["move"]
    powerups := []
    inventory := []
    keys := []
    exploredCells := []
    stepsWithoutProgress := 0
    primaryGoal := (3, 3) }

/-- The claim predicate for a plain move: target cell in-bounds, open in
the static grid, and not occupied by a dynamic element as reported by
`isBlocked`. -/
def moveTargetOpen (d : Dims) (pos : Cell) (dyn : DynamicMazeElements.Elems)
    (maze : Maze) (i : Fin 4) : Prop :=
  (0 ≤ pos.1 + (QLearningAgent.actions i).1 ∧
    pos.1 + (QLearningAgent.actions i).1 < d.height ∧
    0 ≤ pos.2 + (QLearningAgent.actions i).2 ∧
    pos.2 + (QLearningAgent.actions i).2 < d.width) ∧
  cellAt maze (pos.1 + (QLearningAgent.actions i).1)
      (pos.2 + (QLearningAgent.actions i).2) = some 0 ∧
  DynamicMazeElements.isBlocked dyn (pos.1 + (QLearningAgent.actions i).1)
      (pos.2 + (QLearningAgent.actions i).2) = false

/-- A dynamic-element configuration with no elements at all. -/
def c10Elems : DynamicMazeElements.Elems := ⟨3, 3, [], [], []⟩

/-- The agent state of the C10 witness: standing at (1,1) with energy
1/2, which is below the unit cost of a plain move. -/
def c10State : EnhancedAgentState.State :=
  { gameMode := "survival"
    width := 3
    height := 3
    position := (1, 1)
    path := [(1, 1)]
    moves := 0
    health := 100
    maxHealth := 100
    energy := 1/2
    maxEnergy := 100
    abilities := ["move"]
    powerups := []
    inventory := []
    keys := []
    exploredCells := []
    stepsWithoutProgress := 0
    primaryGoal := (1, 1) }

/-- The C6 witness agent: a fresh-episode hybrid agent on a 33-by-33
maze (1089 cells, above the 1000-cell threshold). -/
def c6Agent : HybridMazeAgent.Agent :=
  { width := 33
    height := 33
    isLargeMaze := decide ((1000 : Int) < 33 * 33)
    epsilon := 1/10
    gamesPlayed := 0
    successfulGames := 0
    position := (1, 1)
    path := [(1, 1)]
    moves := 0
    knownSolution := none
    solutionSteps := 0
    currentStrategy := "pathfinding" }

/-! ## Supporting lemmas -/

/-- Folding `storeExperience` keeps exactly the most recent `cap` records:
the buffer is the concatenation with everything older dropped. -/
theorem storeExperience_foldl (cap : Nat) :
    ∀ (l : List NeuralMazeAgent.Experience) (buf : List NeuralMazeAgent.Experience),
      buf.length ≤ cap →
      List.foldl (NeuralMazeAgent.storeExperience cap) buf l =
        (buf ++ l).drop ((buf ++ l).length - cap)
  | [], buf, h => by
      have h0 : buf.length - cap = 0 := by omega
      simp [h0]
  | e :: rest, buf, h => by
      rw [List.foldl_cons]
      by_cases hlen : cap < (buf ++ [e]).length
      · have hbuf : buf.length = cap := by
          simp at hlen; omega
        have hstep : NeuralMazeAgent.storeExperience cap buf e = (buf ++ [e]).tail := by
          simp only [NeuralMazeAgent.storeExperience]
          rw [if_pos hlen]
        have htail : (buf ++ [e]).tail.length ≤ cap := by
          simp [hbuf]
        rw [hstep, storeExperience_foldl cap rest _ htail]
        have h1 : (buf ++ [e]).tail = (buf ++ [e]).drop 1 := (List.drop_one _).symm
        have h2 : (1 : Nat) ≤ (buf ++ [e]).length := by simp
        rw [h1, ← List.drop_append_of_le_length h2, List.drop_drop]
        have h3 : buf ++ e :: rest = (buf ++ [e]) ++ rest := by simp
        rw [h3]
        congr 1
        simp [hbuf]
        omega
      · have hle : (buf ++ [e]).length ≤ cap := Nat.le_of_not_lt hlen
        have hstep : NeuralMazeAgent.storeExperience cap buf e = buf ++ [e] := by
          simp only [NeuralMazeAgent.storeExperience]
          rw [if_neg hlen]
        rw [hstep, storeExperience_foldl cap rest _ hle]
        have h3 : buf ++ e :: rest = (buf ++ [e]) ++ rest := by simp
        rw [h3]

/-! ## Claim theorems -/

/-- C5.  For every sequence of insertions into the experience replay
buffer, the buffer length never exceeds its configured capacity, and
inserting `capacity + k` records (`k ≥ 0`) evicts exactly the `k` oldest
records in FIFO order, leaving the most recent `capacity` records in
insertion order (the final buffer is `l.drop (l.length - cap)`). -/
theorem c5_replay_buffer_fifo (cap : Nat) (l : List NeuralMazeAgent.Experience) :
    List.foldl (NeuralMazeAgent.storeExperience cap) [] l = l.drop (l.length - cap) ∧
    (List.foldl (NeuralMazeAgent.storeExperience cap) [] l).length ≤ cap := by
  have h := storeExperience_foldl cap l [] (by simp)
  simp only [List.nil_append] at h
  refine ⟨h, ?_⟩
  rw [h, List.length_drop]
  omega

/-- The argmax fold of the root decision never leaves the supplied list. -/
theorem bestRootAction_fold_mem (q : Fin 4 → Rat) (n : Fin 4 → Nat) (L : List (Fin 4)) :
    ∀ (l : List (Fin 4)) (acc : Fin 4 × WithBot Rat), acc.1 ∈ L → (∀ x ∈ l, x ∈ L) →
      (l.foldl
        (fun best a =>
          let v : WithBot Rat := if 0 < n a then ((q a / n a : Rat) : WithBot Rat) else ⊥
          if best.2 < v then (a, v) else best)
        acc).1 ∈ L
  | [], acc, hacc, _ => hacc
  | a :: rest, acc, hacc, hsub => by
      rw [List.foldl_cons]
      by_cases hv : acc.2 < (if 0 < n a then ((q a / n a : Rat) : WithBot Rat) else ⊥)
      · exact bestRootAction_fold_mem q n L rest _
          (by simp [hv, hsub a (List.mem_cons_self a rest)])
          (fun x hx => hsub x (List.mem_cons_of_mem a hx))
      · exact bestRootAction_fold_mem q n L rest _ (by simp [hv, hacc])
          (fun x hx => hsub x (List.mem_cons_of_mem a hx))

/-- C7.  For any maze, any root state, and any statistics the time-boxed
simulation loop accumulated (hence any nonzero time budget), the root
action returned by the planner is a member of the valid-action set of
the root state when that set is non-empty, and is the default action
(index 0) when the root has no valid actions. -/
theorem c7_planner_root_action_valid (d : Dims) (state : Cell) (maze : Maze)
    (q : Fin 4 → Rat) (n : Fin 4 → Nat) :
    (QLearningAgent.validActionsFromState d state maze = [] →
      MCTS.planRootAction d state maze q n = 0) ∧
    (QLearningAgent.validActionsFromState d state maze ≠ [] →
      MCTS.planRootAction d state maze q n ∈
        QLearningAgent.validActionsFromState d state maze) := by
  constructor
  · intro hemp
    simp [MCTS.planRootAction, MCTS.bestRootAction, hemp]
  · intro hne
    unfold MCTS.planRootAction MCTS.bestRootAction
    cases hL : QLearningAgent.validActionsFromState d state maze with
    | nil => exact absurd hL hne
    | cons a0 rest =>
        exact bestRootAction_fold_mem q n (a0 :: rest) (a0 :: rest) (a0, ⊥)
          (List.mem_cons_self a0 rest) (fun x hx => hx)

/-- C7 witness: on the 2-by-2 open grid the valid actions at the origin
are [right, down], and the planner with empty statistics returns the
first of them. -/
theorem c7_planner_root_action_valid_witness :
    MCTS.planRootAction ⟨2, 2⟩ (0, 0) [[0, 0], [0, 0]] (fun _ => 0) (fun _ => 0) ∈
      QLearningAgent.validActionsFromState ⟨2, 2⟩ (0, 0) [[0, 0], [0, 0]] :=
  (c7_planner_root_action_valid ⟨2, 2⟩ (0, 0) [[0, 0], [0, 0]] (fun _ => 0) (fun _ => 0)).2
    (by decide)

/-- C4 counterexample.  The claim says epsilon never drops strictly below
`epsilonMin`; but `finishGame` only guards the decay with
`if (epsilon > epsilonMin)` and does not clamp the product, so an agent
constructed with `epsilon = 0.0101`, `epsilonMin = 0.01`,
`epsilonDecay = 0.9` (all accepted and produced verbatim by the
constructor clamps) ends the next episode at `0.00909 < epsilonMin`. -/
theorem c4_epsilon_floor_counterexample :
    QLearningAgent.finishGameEpsilon (101/10000) (1/100) (9/10) = 909/100000 ∧
    (909/100000 : Rat) < 1/100 := by
  constructor
  · simp [QLearningAgent.finishGameEpsilon]
    norm_num
  · norm_num

/-- C4 amended.  For each policy, absent auto-tune intervention, one
decay step (episode end for the tabular and hybrid policies, training
batch for the linear policy) never increases epsilon, so epsilon is
monotonically non-increasing over successive episode ends / batches; and
each step keeps epsilon at or above `min epsilon (epsilonMin * decay)`,
i.e. epsilon can undershoot `epsilonMin` by at most one decay factor
(rather than never dropping below `epsilonMin`, which is refuted by the
counterexample). -/
theorem c4_epsilon_decay_step (ε εMin dcy : Rat) (isLarge : Bool)
    (hε : 0 ≤ ε) (hd0 : 0 ≤ dcy) (hd1 : dcy ≤ 1) :
    (QLearningAgent.finishGameEpsilon ε εMin dcy ≤ ε ∧
      min ε (εMin * dcy) ≤ QLearningAgent.finishGameEpsilon ε εMin dcy) ∧
    (HybridMazeAgent.finishGameEpsilon isLarge ε εMin dcy ≤ ε ∧
      min ε (εMin * (if isLarge then (99/100 : Rat) else dcy)) ≤
        HybridMazeAgent.finishGameEpsilon isLarge ε εMin dcy) ∧
    (NeuralMazeAgent.decayEpsilon ε εMin dcy ≤ ε ∧
      min ε (εMin * dcy) ≤ NeuralMazeAgent.decayEpsilon ε εMin dcy) := by
  have key : ∀ rate : Rat, 0 ≤ rate → rate ≤ 1 →
      ((if εMin < ε then ε * rate else ε) ≤ ε ∧
        min ε (εMin * rate) ≤ (if εMin < ε then ε * rate else ε)) := by
    intro rate hr0 hr1
    by_cases hlt : εMin < ε
    · rw [if_pos hlt]
      refine ⟨mul_le_of_le_one_right hε hr1, ?_⟩
      calc min ε (εMin * rate) ≤ εMin * rate := min_le_right _ _
        _ ≤ ε * rate := mul_le_mul_of_nonneg_right (le_of_lt hlt) hr0
    · rw [if_neg hlt]
      exact ⟨le_refl ε, min_le_left _ _⟩
  refine ⟨?_, ?_, ?_⟩
  · exact key dcy hd0 hd1
  · have := key (if isLarge then (99/100 : Rat) else dcy)
      (by cases isLarge <;> simp [hd0]; norm_num)
      (by cases isLarge <;> simp [hd1]; norm_num)
    simpa [HybridMazeAgent.finishGameEpsilon] using this
  · exact key dcy hd0 hd1

/-- C4 witness: the amended bounds at a concrete decay step. -/
theorem c4_epsilon_decay_step_witness :
    QLearningAgent.finishGameEpsilon (1/2) (1/100) (99/100) ≤ 1/2 ∧
    min (1/2 : Rat) ((1/100) * (99/100)) ≤
      QLearningAgent.finishGameEpsilon (1/2) (1/100) (99/100) :=
  (c4_epsilon_decay_step (1/2) (1/100) (99/100) false (by norm_num) (by norm_num)
    (by norm_num)).1

/-- C1 counterexample.  On a transition whose move-count timeout
condition holds (`checkTerminalConditions` reports "timeout": 51 moves
on the 5-by-5 maze, bound 2 * 5 * 5 = 50), the enhanced reward model
returns 259/20 = +12.95, not a value at most -50: `calculateReward` has
no timeout branch at all, so the shaping terms (here the progress bonus)
decide the sign.  This refutes the claim for
`EnhancedAgentState.calculateReward`. -/
theorem c1_reward_terminal_dominance_counterexample :
    (EnhancedAgentState.calculateReward c1TimeoutState "move_right" (1, 2) maze5
      noEvents).1 = 259/20 ∧
    NeuralMazeAgent.checkTerminalConditions ⟨5, 5⟩
      (EnhancedAgentState.calculateReward c1TimeoutState "move_right" (1, 2) maze5
        noEvents).2 = some "timeout" ∧
    ¬((259/20 : Rat) ≤ -50) := by
  refine ⟨?_, ?_, by norm_num⟩ <;>
    · simp only [EnhancedAgentState.calculateReward, EnhancedAgentState.getEnergyCost,
        c1TimeoutState, maze5, noEvents, jsMax, jsMin,
        NeuralMazeAgent.checkTerminalConditions]
      simp
      try norm_num
      try simp
      try norm_num
      try decide

/-- C1 amended.  Terminal dominance holds exactly for the tabular reward
models: `QLearningAgent.getReward` and `HybridMazeAgent.getReward`
return exactly 100 (hence at least 100) whenever the win flag is set,
and exactly -50 (hence at most -50) on a game-over without win,
regardless of the shaping terms.  For the enhanced reward model
(`EnhancedAgentState.calculateReward`) the terminal terms are merely
added (+100 plus the efficiency bonus on win, -100 on resource
depletion, nothing on timeout) and do not dominate the other terms, as
the counterexample shows. -/
theorem c1_tabular_terminal_dominance (d : Dims) (visited : List Cell)
    (o nw : Cell) (go : Bool) :
    QLearningAgent.getReward d o nw go true = 100 ∧
    QLearningAgent.getReward d o nw true false = -50 ∧
    HybridMazeAgent.getReward d visited o nw go true = 100 ∧
    HybridMazeAgent.getReward d visited o nw true false = -50 := by
  refine ⟨?_, ?_, ?_, ?_⟩ <;>
    simp [QLearningAgent.getReward, HybridMazeAgent.getReward]

/-- `jsMaxBot` is negative infinity only when both sides are. -/
theorem jsMaxBot_eq_bot_iff (a b : WithBot Rat) :
    jsMaxBot a b = ⊥ ↔ a = ⊥ ∧ b = ⊥ := by
  cases a <;> cases b <;> simp [jsMaxBot, WithBot.none_eq_bot]

/-- One entry of the bootstrap fold is negative infinity exactly when the
action is invalid. -/
theorem validEntry_eq_bot_iff (c : Bool) (x : Rat) :
    (if c then ((x : Rat) : WithBot Rat) else ⊥) = ⊥ ↔ c = false := by
  cases c <;> simp

/-- The tabular bootstrap term is negative infinity exactly when no
action is valid in the successor state. -/
theorem maxFutureQ_eq_bot_iff (d : Dims) (table : QLearningAgent.QTable)
    (s' : Cell) (maze : Maze) :
    QLearningAgent.maxFutureQ d table s' maze = ⊥ ↔
      ∀ b, QLearningAgent.isValidMove d s' b maze = false := by
  show jsMaxBot (jsMaxBot (jsMaxBot (jsMaxBot ⊥ _) _) _) _ = ⊥ ↔ _
  simp only [jsMaxBot_eq_bot_iff, validEntry_eq_bot_iff]
  constructor
  · rintro ⟨⟨⟨⟨-, h0⟩, h1⟩, h2⟩, h3⟩ b
    fin_cases b <;> assumption
  · intro h
    exact ⟨⟨⟨⟨trivial, h 0⟩, h 1⟩, h 2⟩, h 3⟩

/-- C2 counterexample.  The claim takes the bootstrap term to be 0 when
no action is valid in the successor state; `QLearningAgent.updateQValue`
has no such guard, so the `Math.max` over an empty valid set is
negative infinity and the written entry becomes negative infinity
instead of `Q + α(r + γ·0 - Q) = 10`.  The 3-by-3 maze here satisfies
the generator contract (open start = open goal = (1,1)), and the
transition is the real one produced by training on it: the agent holds
at (1,1), `getReward` returns 100 (win), and `trainStep` still calls
`updateQValue` with `s = s' = (1,1)`. -/
theorem c2_q_update_bootstrap_counterexample :
    QLearningAgent.updateQValue ⟨3, 3⟩ (1/10) (19/20) (fun _ _ => 0)
      (1, 1) 0 (1, 1) 100 [[1, 1, 1], [1, 0, 1], [1, 1, 1]] (1, 1) 0 = ⊥ ∧
    (⊥ : WithBot Rat) ≠
      ((0 + (1/10) * (100 + (19/20) * 0 - 0) : Rat) : WithBot Rat) := by
  constructor
  · decide
  · exact WithBot.bot_ne_coe

/-- C2 amended.  For the hybrid policy while learning is active, the
post-update entry equals exactly `Q + α(r + γ·maxNextQ - Q)` with the
bootstrap 0 when no action is valid, and no other entry changes; while
the search strategy is active no entry changes at all.  For the tabular
policy the same exact formula holds whenever at least one action is
valid in the successor state (which covers every transition on a maze
where the agent position has an open neighbour); when no action is
valid, the entry is driven to negative infinity instead of using a 0
bootstrap (the counterexample); all other entries are unchanged. -/
theorem c2_q_update_formula (d : Dims) (lr g r : Rat)
    (table : QLearningAgent.QTable) (s s' : Cell) (a : Fin 4) (maze : Maze) :
    (HybridMazeAgent.updateQValue d "qlearning" lr g table s a s' r maze s a =
      table s a + lr * (r + g * HybridMazeAgent.maxFutureQ d table s' maze - table s a)) ∧
    (∀ p b, ¬(p = s ∧ b = a) →
      HybridMazeAgent.updateQValue d "qlearning" lr g table s a s' r maze p b = table p b) ∧
    (∀ strat, strat ≠ "qlearning" →
      HybridMazeAgent.updateQValue d strat lr g table s a s' r maze = table) ∧
    ((∃ b, QLearningAgent.isValidMove d s' b maze = true) →
      QLearningAgent.updateQValue d lr g table s a s' r maze s a =
        ((table s a + lr * (r + g * HybridMazeAgent.maxFutureQ d table s' maze - table s a)
          : Rat) : WithBot Rat)) ∧
    ((∀ b, QLearningAgent.isValidMove d s' b maze = false) →
      QLearningAgent.updateQValue d lr g table s a s' r maze s a = ⊥) ∧
    (∀ p b, ¬(p = s ∧ b = a) →
      QLearningAgent.updateQValue d lr g table s a s' r maze p b =
        ((table p b : Rat) : WithBot Rat)) := by
  refine ⟨?_, ?_, ?_, ?_, ?_, ?_⟩
  · simp [HybridMazeAgent.updateQValue]
  · intro p b h
    simp [HybridMazeAgent.updateQValue, h]
  · intro strat h
    simp [HybridMazeAgent.updateQValue, h]
  · rintro ⟨b, hb⟩
    have hne : QLearningAgent.maxFutureQ d table s' maze ≠ ⊥ := by
      rw [Ne, maxFutureQ_eq_bot_iff]
      intro hall
      rw [hall b] at hb
      exact Bool.false_ne_true hb
    obtain ⟨v, hv⟩ := Option.ne_none_iff_exists'.mp hne
    simp [QLearningAgent.updateQValue, QLearningAgent.newQ, hv,
      HybridMazeAgent.maxFutureQ]
  · intro hall
    have hbot : QLearningAgent.maxFutureQ d table s' maze = ⊥ :=
      (maxFutureQ_eq_bot_iff d table s' maze).mpr hall
    simp [QLearningAgent.updateQValue, QLearningAgent.newQ, hbot]
  · intro p b h
    simp [QLearningAgent.updateQValue, h]

/-- C2 witness: the amended tabular formula at a successor state with a
valid action, on the open 2-by-2 grid. -/
theorem c2_q_update_formula_witness :
    QLearningAgent.updateQValue ⟨2, 2⟩ (1/10) (19/20) (fun _ _ => 0)
      (0, 0) 0 (0, 0) 5 [[0, 0], [0, 0]] (0, 0) 0 =
      ((0 + (1/10) * (5 + (19/20) *
        HybridMazeAgent.maxFutureQ ⟨2, 2⟩ (fun _ _ => 0) (0, 0) [[0, 0], [0, 0]] - 0)
        : Rat) : WithBot Rat) :=
  (c2_q_update_formula ⟨2, 2⟩ (1/10) (19/20) 5 (fun _ _ => 0) (0, 0) (0, 0) 0
    [[0, 0], [0, 0]]).2.2.2.1 ⟨1, by decide⟩

/-- Membership in one direction block of `getValidActions`. -/
theorem mem_directionBlock (d : Dims) (st : EnhancedAgentState.State)
    (dyn : DynamicMazeElements.Elems) (maze : Maze)
    (mv dsh jmp x : String) (dx dy : Int) :
    x ∈ NeuralMazeAgent.directionBlock d st dyn maze (mv, dsh, jmp, dx, dy) ↔
      (((0 ≤ st.position.1 + dx ∧ st.position.1 + dx < d.height ∧
          0 ≤ st.position.2 + dy ∧ st.position.2 + dy < d.width) ∧
        cellAt maze (st.position.1 + dx) (st.position.2 + dy) = some 0 ∧
        DynamicMazeElements.isBlocked dyn (st.position.1 + dx)
          (st.position.2 + dy) = false) ∧
       (x = mv ∨ (x = dsh ∧ ("dash" ∈ st.abilities ∧ 3 ≤ st.energy)) ∨
        (x = jmp ∧ ("jump" ∈ st.abilities ∧ 2 ≤ st.energy)))) := by
  simp only [NeuralMazeAgent.directionBlock]
  split
  case isTrue h =>
    by_cases hd : ("dash" ∈ st.abilities ∧ 3 ≤ st.energy) <;>
      by_cases hj : ("jump" ∈ st.abilities ∧ 2 ≤ st.energy) <;>
        simp [hd, hj, h]
  case isFalse h =>
    simp [h]

/-- A plain move action is in the neural valid-action set exactly when
its target passes the shared in-bounds / open / unblocked gate. -/
theorem moveName_mem_getValidActions (d : Dims) (st : EnhancedAgentState.State)
    (dyn : DynamicMazeElements.Elems) (maze : Maze) (i : Fin 4) :
    NeuralMazeAgent.moveName i ∈ NeuralMazeAgent.getValidActions d st dyn maze ↔
      moveTargetOpen d st.position dyn maze i := by
  have hinv : NeuralMazeAgent.moveName i ∈
      (if 0 < st.inventory.length then ["use_item"] else []) ↔ False := by
    split <;> fin_cases i <;> simp [NeuralMazeAgent.moveName]
  fin_cases i <;>
    simp [NeuralMazeAgent.getValidActions, NeuralMazeAgent.nDirections,
      NeuralMazeAgent.moveName, mem_directionBlock, moveTargetOpen,
      QLearningAgent.actions, hinv]

/-- C3.  For every state, action, grid, and dynamic-element
configuration, the valid-move check returns true exactly when the target
cell is in-bounds, open (0) in the static grid, and not occupied by a
dynamic element as reported by `isBlocked`: for the tabular agents
(which own no dynamic elements, so the dynamic clause is vacuous)
`isValidMove` checks bounds and openness; for the enhanced agent,
membership of a plain move in `getValidActions` additionally checks
`isBlocked` on the target. -/
theorem c3_valid_move_iff (d : Dims) (s : Cell) (a : Fin 4) (maze : Maze)
    (st : EnhancedAgentState.State) (dyn : DynamicMazeElements.Elems) (i : Fin 4) :
    (QLearningAgent.isValidMove d s a maze = true ↔
      (0 ≤ s.1 + (QLearningAgent.actions a).1 ∧
        s.1 + (QLearningAgent.actions a).1 < d.height ∧
        0 ≤ s.2 + (QLearningAgent.actions a).2 ∧
        s.2 + (QLearningAgent.actions a).2 < d.width) ∧
      cellAt maze (s.1 + (QLearningAgent.actions a).1)
        (s.2 + (QLearningAgent.actions a).2) = some 0) ∧
    (NeuralMazeAgent.moveName i ∈ NeuralMazeAgent.getValidActions d st dyn maze ↔
      moveTargetOpen d st.position dyn maze i) := by
  constructor
  · simp [QLearningAgent.isValidMove, Bool.and_eq_true, decide_eq_true_eq,
      beq_iff_eq, and_assoc]
  · exact moveName_mem_getValidActions d st dyn maze i

/-- C10.  A plain move that `getValidActions` reports as valid can still
fail at execution time: `performAction` additionally requires the agent
energy to cover the unit move cost, and when it does not, the call
returns `success = false` and leaves the whole agent state (position and
path included) unchanged, raising no error. -/
theorem c10_perform_action_energy_gate (d : Dims) (st : EnhancedAgentState.State)
    (dyn : DynamicMazeElements.Elems) (maze : Maze) (i : Fin 4)
    (hmem : NeuralMazeAgent.moveName i ∈ NeuralMazeAgent.getValidActions d st dyn maze)
    (hen : st.energy < 1) :
    NeuralMazeAgent.performAction d dyn st (NeuralMazeAgent.moveName i) maze =
      (false, st) := by
  have hgate := (moveName_mem_getValidActions d st dyn maze i).mp hmem
  obtain ⟨hb, hopen, hblock⟩ := hgate
  have hne : ¬(1 : Rat) ≤ st.energy := not_le.mpr hen
  have h0 : jsSplit "move_up" '_' = ["move", "up"] := by decide
  have h1 : jsSplit "move_right" '_' = ["move", "right"] := by decide
  have h2 : jsSplit "move_down" '_' = ["move", "down"] := by decide
  have h3 : jsSplit "move_left" '_' = ["move", "left"] := by decide
  fin_cases i <;>
    simp_all [NeuralMazeAgent.performAction, NeuralMazeAgent.moveName,
      NeuralMazeAgent.directionVector, QLearningAgent.actions]

/-- C10 witness: on a fixture where "move_up" is reported valid but the
agent has only 1/2 energy, execution fails and changes nothing. -/
theorem c10_perform_action_energy_gate_witness :
    NeuralMazeAgent.performAction ⟨3, 3⟩ c10Elems c10State "move_up"
      [[1, 0, 1], [1, 0, 1], [1, 1, 1]] = (false, c10State) := by
  have hmem : NeuralMazeAgent.moveName 0 ∈
      NeuralMazeAgent.getValidActions ⟨3, 3⟩ c10State c10Elems
        [[1, 0, 1], [1, 0, 1], [1, 1, 1]] := by decide
  have hen : c10State.energy < 1 := by norm_num [c10State]
  exact c10_perform_action_energy_gate ⟨3, 3⟩ c10State c10Elems
    [[1, 0, 1], [1, 0, 1], [1, 1, 1]] 0 hmem hen

/-- Once a solution is cached and a step has been taken, the pathfinding
replay never consults the path oracle again this episode. -/
theorem pathfindingMove_cached (g₁ g₂ : Maze → Cell → Option (List Cell))
    (ag : HybridMazeAgent.Agent) (maze : Maze)
    (hsol : ag.knownSolution ≠ none) (hsteps : ag.solutionSteps ≠ 0) :
    HybridMazeAgent.pathfindingMove g₁ ag maze =
      HybridMazeAgent.pathfindingMove g₂ ag maze := by
  simp [HybridMazeAgent.pathfindingMove, hsol, hsteps]

/-- C6.  On a maze whose cell count exceeds the 1000-cell threshold, the
hybrid policy resolves every action request to the "pathfinding"
strategy: the first request computes one route via the path oracle,
caches it for the episode, reports strategy "pathfinding", and advances
the agent to the second cell of the route; a second request does not
consult the oracle again (its outcome is oracle-independent); and no
Q-table update is applied while this strategy is active. -/
theorem c6_hybrid_large_maze_pathfinding
    (oracle g : Maze → Cell → Option (List Cell)) (act : Fin 4)
    (ag : HybridMazeAgent.Agent) (maze : Maze) (route : List Cell)
    (hcells : (1000 : Int) < ag.width * ag.height)
    (hflag : ag.isLargeMaze = decide ((1000 : Int) < ag.width * ag.height))
    (hfresh : ag.knownSolution = none)
    (horacle : oracle maze ag.position = some route)
    (hlen : 2 ≤ route.length) :
    (HybridMazeAgent.move oracle act ag maze).1.strategy = "pathfinding" ∧
    (HybridMazeAgent.move oracle act ag maze).1.isValid = true ∧
    (HybridMazeAgent.move oracle act ag maze).1.position =
      route.getD 1 ag.position ∧
    (HybridMazeAgent.move oracle act ag maze).2.position =
      route.getD 1 ag.position ∧
    (HybridMazeAgent.move oracle act ag maze).2.knownSolution = some route ∧
    (HybridMazeAgent.move oracle act ag maze).2.currentStrategy = "pathfinding" ∧
    (HybridMazeAgent.move g act (HybridMazeAgent.move oracle act ag maze).2
        maze).1 =
      (HybridMazeAgent.move oracle act (HybridMazeAgent.move oracle act ag maze).2
        maze).1 ∧
    (∀ d lr gm table s b s2 rew mz,
      HybridMazeAgent.updateQValue d
        (HybridMazeAgent.move oracle act ag maze).2.currentStrategy
        lr gm table s b s2 rew mz = table) := by
  have hl : ag.isLargeMaze = true := by
    rw [hflag]
    exact decide_eq_true hcells
  have hguard : 0 < route.length - 1 := by omega
  have hmove : HybridMazeAgent.move oracle act ag maze =
      (⟨route.getD 1 ag.position, ag.moves + 1, true, "pathfinding"⟩,
       { ag with
          currentStrategy := "pathfinding"
          knownSolution := some route
          solutionSteps := 1
          position := route.getD 1 ag.position
          path := ag.path ++ [route.getD 1 ag.position]
          moves := ag.moves + 1 }) := by
    simp [HybridMazeAgent.move, HybridMazeAgent.selectStrategy, hl,
      HybridMazeAgent.pathfindingMove, hfresh, horacle, hguard]
  rw [hmove]
  refine ⟨rfl, rfl, rfl, rfl, rfl, rfl, ?_, ?_⟩
  · simp [HybridMazeAgent.move, HybridMazeAgent.selectStrategy, hl]
    exact congrArg Prod.fst (pathfindingMove_cached g oracle _ _ (by simp) (by simp))
  · intro d lr gm table s b s2 rew mz
    simp [HybridMazeAgent.updateQValue]

/-- C6 witness: a concrete fresh large-maze agent with a 3-cell oracle
route; the first action request reports strategy "pathfinding" and moves
to the second cell (1,2). -/
theorem c6_hybrid_large_maze_pathfinding_witness :
    (HybridMazeAgent.move (fun _ _ => some [(1, 1), (1, 2), (1, 3)]) 0 c6Agent
      []).1.strategy = "pathfinding" ∧
    (HybridMazeAgent.move (fun _ _ => some [(1, 1), (1, 2), (1, 3)]) 0 c6Agent
      []).1.position = (1, 2) :=
  ⟨(c6_hybrid_large_maze_pathfinding (fun _ _ => some [(1, 1), (1, 2), (1, 3)])
      (fun _ _ => none) 0 c6Agent [] [(1, 1), (1, 2), (1, 3)] (by decide) (by decide)
      rfl rfl (by decide)).1,
   (c6_hybrid_large_maze_pathfinding (fun _ _ => some [(1, 1), (1, 2), (1, 3)])
      (fun _ _ => none) 0 c6Agent [] [(1, 1), (1, 2), (1, 3)] (by decide) (by decide)
      rfl rfl (by decide)).2.2.1⟩

/-- Dot product of a constant vector with the all-ones vector. -/
theorem zipWith_mul_replicate_sum (n : Nat) (c : Rat) :
    (List.zipWith (fun wi si => wi * si) (List.replicate n c)
      (List.replicate n (1 : Rat))).sum = n * c := by
  induction n with
  | zero => simp
  | succ k ih =>
      simp [List.replicate_succ, ih]
      ring

/-- `mapIdx` of a constant function value on a constant list. -/
theorem mapIdx_replicate_eq (n : Nat) (c v : Rat) (f : Nat → Rat → Rat)
    (hf : ∀ i, i < n → f i c = v) :
    (List.replicate n c).mapIdx f = List.replicate n v := by
  induction n generalizing f with
  | zero => simp
  | succ k ih =>
      rw [List.replicate_succ, List.mapIdx_cons, hf 0 (Nat.succ_pos k),
        List.replicate_succ]
      congr 1
      exact ih (fun i a => f (i + 1) a) (fun i hi => hf (i + 1) (by omega))

/-- One training step of the C8 scenario stays inside the symmetric
family: constant action-0 weight vector `c`, bias `b`, prediction
`b + 50c`, error `10 - (b + 50c)`. -/
theorem terminalStep_on_c8 (lr g c b : Rat) (tailW : List (List Rat))
    (tailB : List Rat) :
    NeuralMazeAgent.terminalStep lr g c8Exp
      ⟨List.replicate 50 c :: tailW, b :: tailB⟩ =
      ⟨List.replicate 50 (c + lr * (10 - (b + 50 * c))) :: tailW,
       (b + lr * (10 - (b + 50 * c))) :: tailB⟩ := by
  have hQ : NeuralMazeAgent.forwardPass ⟨List.replicate 50 c :: tailW, b :: tailB⟩
      (List.replicate 50 1) 0 0 = b + 50 * c := by
    simp only [NeuralMazeAgent.forwardPass, List.getD_cons_zero]
    rw [zipWith_mul_replicate_sum]
    norm_num
  have ht : c8Exp.terminal = true := rfl
  have hst : c8Exp.state = List.replicate 50 1 := rfl
  have hac : c8Exp.action = 0 := rfl
  have hrw : c8Exp.reward = (10 : Rat) := rfl
  simp only [NeuralMazeAgent.terminalStep, NeuralMazeAgent.trainSample, ht, hst, hac,
    hrw, eq_self_iff_true, if_true]
  rw [hQ]
  simp only [NeuralMazeAgent.updateWeights, List.getD_cons_zero, List.set_cons_zero,
    List.length_replicate]
  have hmap : (List.replicate 50 c).mapIdx
      (fun i wi => if i < 50 then
        wi + lr * (10 - (b + 50 * c)) * (List.replicate (50:Nat) (1:Rat)).getD i 0
      else wi) =
      List.replicate 50 (c + lr * (10 - (b + 50 * c))) :=
    mapIdx_replicate_eq 50 c (c + lr * (10 - (b + 50 * c))) _ (fun i hi => by
      simp only [hi, if_true, List.getD_eq_getElem?_getD, List.getElem?_replicate,
        Option.getD_some, mul_one])
  rw [hmap]

/-- Along the C8 run the prediction stays above the target 10, so the
action-0 bias strictly decreases at every step and stays nonpositive. -/
theorem c8_invariant (n : Nat) :
    ∃ c b : Rat,
      (NeuralMazeAgent.terminalStep (1/1000) (99/100) c8Exp)^[n] c8Head =
        ⟨List.replicate 50 c :: List.replicate 14 (List.replicate 50 (3/10)),
         b :: List.replicate 14 0⟩ ∧
      10 < b + 50 * c ∧ b ≤ 0 ∧ (1 ≤ n → b < 0) := by
  induction n with
  | zero =>
      refine ⟨3/10, 0, ?_, by norm_num, le_refl 0, by omega⟩
      simp [c8Head, List.replicate_succ]
  | succ k ih =>
      obtain ⟨c, b, heq, hq, hb, hbs⟩ := ih
      rw [Function.iterate_succ_apply', heq, terminalStep_on_c8]
      refine ⟨c + (1/1000) * (10 - (b + 50 * c)),
        b + (1/1000) * (10 - (b + 50 * c)), rfl, by nlinarith, by nlinarith,
        fun _ => by nlinarith⟩

/-- `trainOnBatch` on a batch of identical samples is the iterate of the
single-sample step. -/
theorem foldl_replicate_trainSample (lr g : Rat) (e : NeuralMazeAgent.Experience) :
    ∀ (n : Nat) (h : NeuralMazeAgent.LinearHead),
      List.foldl
        (fun hh sample =>
          NeuralMazeAgent.trainSample lr g hh sample.1 sample.2.1 sample.2.2)
        h (List.replicate n ((e, 0, fun _ => 0) :
          NeuralMazeAgent.Experience × Rat × (Nat → Rat))) =
        (NeuralMazeAgent.terminalStep lr g e)^[n] h
  | 0, h => by simp
  | n + 1, h => by
      rw [List.replicate_succ, List.foldl_cons,
        foldl_replicate_trainSample lr g e n _, Function.iterate_succ_apply]
      rfl

/-- C8 counterexample.  The scenario claims the 32 identical terminal
experiences (action 0, reward 10) strictly increase the action-0 bias.
On a fresh head whose Xavier draw came out at 3/10 on every coordinate
(inside the support, since (3/10)^2 < 6/50), with the all-ones state
vector the initial prediction is 15 > 10, every sampled error is
negative, and the bias strictly decreases instead. -/
theorem c8_bias_scenario_counterexample :
    (NeuralMazeAgent.trainOnBatch (1/1000) (99/100) c8Head
        (List.replicate 32 ((c8Exp, 0, fun _ => 0) :
          NeuralMazeAgent.Experience × Rat × (Nat → Rat)))
        (9/10) (1/100) (99/100)).1.biases.getD 0 0 <
      c8Head.biases.getD 0 0 := by
  obtain ⟨c, b, heq, hq, hb, hbs⟩ := c8_invariant 32
  simp only [NeuralMazeAgent.trainOnBatch]
  rw [foldl_replicate_trainSample, heq]
  have hb32 : b < 0 := hbs (by omega)
  simp [c8Head]
  exact hb32

/-- On a terminal experience the training step is exactly one gradient
update with error `reward - prediction`. -/
theorem terminalStep_eq_updateWeights (lr g : Rat) (e : NeuralMazeAgent.Experience)
    (h : NeuralMazeAgent.LinearHead) (hterm : e.terminal = true) :
    NeuralMazeAgent.terminalStep lr g e h =
      NeuralMazeAgent.updateWeights lr h e.state e.action
        (e.reward - NeuralMazeAgent.forwardPass h e.state e.action 0) := by
  simp [NeuralMazeAgent.terminalStep, NeuralMazeAgent.trainSample, hterm]

/-- The bias vector written by one gradient update. -/
theorem updateWeights_biases (lr : Rat) (h : NeuralMazeAgent.LinearHead)
    (s : List Rat) (a : Nat) (err : Rat) :
    (NeuralMazeAgent.updateWeights lr h s a err).biases =
      h.biases.set a (h.biases.getD a 0 + lr * err) := rfl

/-- `getD` after an in-range `set` at the same index. -/
theorem getD_set_self_lt {α : Type} {l : List α} {i : Nat} {v d : α}
    (h : i < l.length) : (l.set i v).getD i d = v := by
  simp [List.getElem?_set_self h]

/-- `getD` after a `set` at a different index. -/
theorem getD_set_ne {α : Type} {l : List α} {i j : Nat} {v d : α} (h : i ≠ j) :
    (l.set i v).getD j d = l.getD j d := by
  simp [List.getElem?_set_ne h]

/-- Bias evolution of the iterated scenario step: as long as the
prediction stays below the target, the trained bias never decreases,
strictly increases once at least one step ran, and all other biases are
untouched. -/
theorem terminalStep_bias_props (lr g : Rat) (e : NeuralMazeAgent.Experience)
    (head : NeuralMazeAgent.LinearHead) (hterm : e.terminal = true) (hlr : 0 < lr) :
    ∀ n, (∀ k, k < n → NeuralMazeAgent.forwardPass
        ((NeuralMazeAgent.terminalStep lr g e)^[k] head) e.state e.action 0 < e.reward) →
      ((NeuralMazeAgent.terminalStep lr g e)^[n] head).biases.length =
        head.biases.length ∧
      head.biases.getD e.action 0 ≤
        ((NeuralMazeAgent.terminalStep lr g e)^[n] head).biases.getD e.action 0 ∧
      (1 ≤ n → e.action < head.biases.length →
        head.biases.getD e.action 0 <
          ((NeuralMazeAgent.terminalStep lr g e)^[n] head).biases.getD e.action 0) ∧
      (∀ b, b ≠ e.action →
        ((NeuralMazeAgent.terminalStep lr g e)^[n] head).biases.getD b 0 =
          head.biases.getD b 0)
  | 0, _ => ⟨rfl, le_refl _, fun h1 => absurd h1 (by omega), fun _ _ => rfl⟩
  | n + 1, hpred => by
      obtain ⟨ihlen, ihle, ihlt, ihframe⟩ :=
        terminalStep_bias_props lr g e head hterm hlr n (fun k hk => hpred k (by omega))
      have herr : 0 < e.reward - NeuralMazeAgent.forwardPass
          ((NeuralMazeAgent.terminalStep lr g e)^[n] head) e.state e.action 0 := by
        have := hpred n (by omega)
        linarith
      have hpos : 0 < lr * (e.reward - NeuralMazeAgent.forwardPass
          ((NeuralMazeAgent.terminalStep lr g e)^[n] head) e.state e.action 0) :=
        mul_pos hlr herr
      have hstep : (NeuralMazeAgent.terminalStep lr g e)^[n + 1] head =
          NeuralMazeAgent.updateWeights lr
            ((NeuralMazeAgent.terminalStep lr g e)^[n] head) e.state e.action
            (e.reward - NeuralMazeAgent.forwardPass
              ((NeuralMazeAgent.terminalStep lr g e)^[n] head) e.state e.action 0) := by
        rw [Function.iterate_succ_apply',
          terminalStep_eq_updateWeights lr g e _ hterm]
      rw [hstep, updateWeights_biases]
      refine ⟨by simp [ihlen], ?_, ?_, ?_⟩
      · by_cases ha : e.action <
            ((NeuralMazeAgent.terminalStep lr g e)^[n] head).biases.length
        · rw [getD_set_self_lt ha]
          linarith
        · rw [List.set_eq_of_length_le (by omega)]
          exact ihle
      · intro h1 halen
        have ha : e.action <
            ((NeuralMazeAgent.terminalStep lr g e)^[n] head).biases.length := by
          omega
        rw [getD_set_self_lt ha]
        linarith
      · intro b hb
        rw [getD_set_ne (fun hcontra => hb hcontra.symm)]
        exact ihframe b hb

/-- C8 amended.  One gradient update for a sampled experience with
action index `a` changes only `w_a` and `b_a`, by exactly
`lr * (target - Q) * stateVector` and `lr * (target - Q)` (the
unconditional part of the claim); and in the 32-identical-terminal-
experiences scenario every other action bias stays unchanged while
action a's bias strictly increases PROVIDED the prediction for the
trained pair stays strictly below the target at every sampled step —
with an initial prediction above the target it strictly decreases
instead (the counterexample), so the unconditional strict increase
claimed for the scenario does not hold. -/
theorem c8_linear_update_exact (lr g err : Rat)
    (head : NeuralMazeAgent.LinearHead) (s : List Rat) (a : Nat) :
    (a < head.biases.length →
      (NeuralMazeAgent.updateWeights lr head s a err).biases.getD a 0 =
        head.biases.getD a 0 + lr * err) ∧
    (∀ i, i < s.length → i < (head.weights.getD a []).length →
      ((NeuralMazeAgent.updateWeights lr head s a err).weights.getD a []).getD i 0 =
        (head.weights.getD a []).getD i 0 + lr * err * s.getD i 0) ∧
    (∀ b, b ≠ a →
      (NeuralMazeAgent.updateWeights lr head s a err).biases.getD b 0 =
        head.biases.getD b 0 ∧
      (NeuralMazeAgent.updateWeights lr head s a err).weights.getD b [] =
        head.weights.getD b []) ∧
    (∀ (e : NeuralMazeAgent.Experience) (n : Nat), 0 < lr → e.terminal = true →
      (∀ k, k < n → NeuralMazeAgent.forwardPass
          ((NeuralMazeAgent.terminalStep lr g e)^[k] head) e.state e.action 0 <
        e.reward) →
      (1 ≤ n → e.action < head.biases.length →
        head.biases.getD e.action 0 <
          ((NeuralMazeAgent.terminalStep lr g e)^[n] head).biases.getD e.action 0) ∧
      (∀ b, b ≠ e.action →
        ((NeuralMazeAgent.terminalStep lr g e)^[n] head).biases.getD b 0 =
          head.biases.getD b 0)) := by
  refine ⟨?_, ?_, ?_, ?_⟩
  · intro ha
    rw [updateWeights_biases, getD_set_self_lt ha]
  · intro i hi hiw
    by_cases haw : a < head.weights.length
    · have hw' : (NeuralMazeAgent.updateWeights lr head s a err).weights.getD a [] =
          (head.weights.getD a []).mapIdx fun j wj =>
            if j < s.length then wj + lr * err * s.getD j 0 else wj := by
        simp only [NeuralMazeAgent.updateWeights]
        exact getD_set_self_lt haw
      rw [hw']
      have hlen : i < ((head.weights.getD a []).mapIdx fun j wj =>
          if j < s.length then wj + lr * err * s.getD j 0 else wj).length := by
        simpa using hiw
      rw [List.getD_eq_getElem?_getD, List.getElem?_mapIdx,
        List.getElem?_eq_getElem hiw]
      simp only [Option.map_some', Option.getD_some, hi, if_true,
        List.getD_eq_getElem?_getD]
      have hiw' : i < (head.weights[a]?.getD []).length := by simpa using hiw
      rw [List.getElem?_eq_getElem hiw']
      rfl
    · exfalso
      have hnil : head.weights.getD a [] = [] := by
        rw [List.getD_eq_getElem?_getD, List.getElem?_eq_none (by omega)]
        rfl
      rw [hnil] at hiw
      simp at hiw
  · intro b hb
    constructor
    · rw [updateWeights_biases, getD_set_ne (fun hc => hb hc.symm)]
    · simp only [NeuralMazeAgent.updateWeights]
      exact getD_set_ne (fun hc => hb hc.symm)
  · intro e n hlr hterm hpred
    obtain ⟨-, -, hlt, hframe⟩ :=
      terminalStep_bias_props lr g e head hterm hlr n hpred
    exact ⟨hlt, hframe⟩

/-- C8 witness: on a one-action head with zero weights and bias, one
update with error 2 raises the bias by exactly lr * 2, and one scenario
step on a terminal reward-10 experience strictly raises the bias. -/
theorem c8_linear_update_exact_witness :
    (NeuralMazeAgent.updateWeights (1/1000) ⟨[[0]], [0]⟩ [1] 0 2).biases.getD 0 0 =
      (0 : Rat) + (1/1000) * 2 ∧
    ((0 : Rat) <
      ((NeuralMazeAgent.terminalStep (1/1000) (99/100)
        ⟨[1], 0, 10, [1], true⟩)^[1] ⟨[[0]], [0]⟩).biases.getD 0 0) := by
  constructor
  · exact (c8_linear_update_exact (1/1000) (99/100) 2 ⟨[[0]], [0]⟩ [1] 0).1
      (by norm_num)
  · have h := (c8_linear_update_exact (1/1000) (99/100) 2 ⟨[[0]], [0]⟩ [1] 0).2.2.2
      ⟨[1], 0, 10, [1], true⟩ 1 (by norm_num) rfl ?_
    · exact h.1 (by omega) (by norm_num)
    · intro k hk
      have hk0 : k = 0 := by omega
      subst hk0
      simp [NeuralMazeAgent.forwardPass]

/-- `jsMin` is at most its left argument. -/
theorem jsMin_le_left (a b : Rat) : jsMin a b ≤ a := by
  unfold jsMin
  split <;> linarith

/-- `jsMin` is at most its right argument. -/
theorem jsMin_le_right (a b : Rat) : jsMin a b ≤ b := by
  unfold jsMin
  split <;> linarith

/-- `jsMax` is an upper bound of its left argument. -/
theorem le_jsMax_left (a b : Rat) : a ≤ jsMax a b := by
  unfold jsMax
  split <;> linarith

/-- `jsMax` is an upper bound of its right argument. -/
theorem le_jsMax_right (a b : Rat) : b ≤ jsMax a b := by
  unfold jsMax
  split <;> linarith

/-- `jsMax` is the least upper bound. -/
theorem jsMax_le {a b c : Rat} (ha : a ≤ c) (hb : b ≤ c) : jsMax a b ≤ c := by
  unfold jsMax
  split <;> linarith

/-- `jsMin` is the greatest lower bound. -/
theorem le_jsMin {a b c : Rat} (ha : c ≤ a) (hb : c ≤ b) : c ≤ jsMin a b := by
  unfold jsMin
  split <;> linarith

/-- The decay clamp never goes below 0.9. -/
theorem clampDecay_ge (d : Rat) : 9/10 ≤ AutoEpsilonScheduler.clampDecay d :=
  le_jsMin (by norm_num) (le_jsMax_left _ _)

/-- Clamping a decay already at or above 0.9 never raises it. -/
theorem clampDecay_le {d : Rat} (hd : 9/10 ≤ d) :
    AutoEpsilonScheduler.clampDecay d ≤ d :=
  le_trans (jsMin_le_right _ _) (jsMax_le hd (le_refl d))

/-- Accelerating the decay (multiply by 0.97, clamp) never raises it. -/
theorem clampDecay_mul_le {d : Rat} (hd : 9/10 ≤ d) :
    AutoEpsilonScheduler.clampDecay (d * (97/100)) ≤ d := by
  have h1 : jsMax (9/10) (d * (97/100)) ≤ d := jsMax_le hd (by nlinarith)
  calc AutoEpsilonScheduler.clampDecay (d * (97/100)) ≤
      jsMax (9/10) (d * (97/100)) := jsMin_le_right _ _
    _ ≤ d := h1

/-- Recording an episode into a window that is not yet full just appends. -/
theorem recordEpisode_notfull (s : AutoEpsilonScheduler.Scheduler)
    (ep : AutoEpsilonScheduler.EpRecord) (hlen : s.history.length ≤ 19) :
    AutoEpsilonScheduler.recordEpisode s ep =
      ⟨s.gameMode, s.history ++ [ep]⟩ := by
  simp only [AutoEpsilonScheduler.recordEpisode, AutoEpsilonScheduler.window]
  rw [if_neg (by simp; omega)]

/-- The windowed success rate of an all-win history after one more win. -/
theorem allwin_success (s : AutoEpsilonScheduler.Scheduler)
    (hwin : ∀ r ∈ s.history, r.win = true) :
    (((s.history ++ [AutoEpsilonScheduler.winEpisode]).filter
        (fun x => x.win)).length : Rat) /
      (if (s.history ++ [AutoEpsilonScheduler.winEpisode]).length = 0 then (1 : Rat)
        else ((s.history ++ [AutoEpsilonScheduler.winEpisode]).length : Rat)) = 1 := by
  have hfilter : (s.history ++ [AutoEpsilonScheduler.winEpisode]).filter
      (fun x => x.win) = s.history ++ [AutoEpsilonScheduler.winEpisode] := by
    rw [List.filter_eq_self]
    intro r hr
    rcases List.mem_append.mp hr with h | h
    · exact hwin r h
    · simp only [List.mem_singleton] at h
      rw [h]
      rfl
  rw [hfilter, if_neg (by simp)]
  refine div_self ?_
  have h0 : (0 : Rat) < ((s.history ++ [AutoEpsilonScheduler.winEpisode]).length : Rat) := by
    have : 0 < (s.history ++ [AutoEpsilonScheduler.winEpisode]).length := by simp
    exact_mod_cast this
  exact ne_of_gt h0

/-- The epsilon written by one all-win scheduler step. -/
theorem onWin_epsilon_eval (s : AutoEpsilonScheduler.Scheduler)
    (a : AutoEpsilonScheduler.SchedAgent)
    (hwin : ∀ r ∈ s.history, r.win = true) (hlen : s.history.length ≤ 19) :
    (AutoEpsilonScheduler.onWin (s, a)).2.epsilon =
      if 10 ≤ s.history.length + 1 then jsMax a.epsilonMin (a.epsilon * (9/10))
      else a.epsilon := by
  have hw2 : AutoEpsilonScheduler.window / 2 = 10 := rfl
  simp only [AutoEpsilonScheduler.onWin, AutoEpsilonScheduler.onEpisodeEnd,
    recordEpisode_notfull s _ hlen, hw2, List.length_append, List.length_singleton,
    apply_ite (fun x : AutoEpsilonScheduler.SchedAgent => x.epsilon)]
  have hflen : ((List.filter (fun x => x.win)
      (s.history ++ [AutoEpsilonScheduler.winEpisode])).length : Rat) =
      (s.history.length : Rat) + 1 := by
    have hself : List.filter (fun x => x.win)
        (s.history ++ [AutoEpsilonScheduler.winEpisode]) =
        s.history ++ [AutoEpsilonScheduler.winEpisode] := by
      rw [List.filter_eq_self]
      intro r hr
      rcases List.mem_append.mp hr with h | h
      · exact hwin r h
      · simp only [List.mem_singleton] at h
        rw [h]
        rfl
    rw [hself]
    push_cast [List.length_append]
    norm_num
  have hn : (if s.history.length + 1 = 0 then (1:Rat)
      else ((s.history.length + 1 : Nat) : Rat)) = ((s.history.length + 1 : Nat) : Rat) :=
    if_neg (by omega)
  have hdiv : ((s.history.length : Rat) + 1) / ((s.history.length + 1 : Nat) : Rat) = 1 := by
    push_cast
    exact div_self (by positivity)
  rw [hflen, hn, hdiv]
  have c2 : ((1:Rat) ≤ 1/10 ∧ 10 ≤ s.history.length + 1) = False :=
    eq_false (by rintro ⟨h1, -⟩; norm_num at h1)
  have c1 : ((4:Rat)/5 ≤ 1 ∧ 10 ≤ s.history.length + 1) =
      (10 ≤ s.history.length + 1) := propext (and_iff_right (by norm_num))
  simp only [c1, c2, if_false]

/-- The decay written by one all-win scheduler step. -/
theorem onWin_decay_eval (s : AutoEpsilonScheduler.Scheduler)
    (a : AutoEpsilonScheduler.SchedAgent)
    (hwin : ∀ r ∈ s.history, r.win = true) (hlen : s.history.length ≤ 19) :
    (AutoEpsilonScheduler.onWin (s, a)).2.epsilonDecay =
      AutoEpsilonScheduler.clampDecay
        (if 10 ≤ s.history.length + 1 then
          AutoEpsilonScheduler.clampDecay (a.epsilonDecay * (97/100))
        else a.epsilonDecay) := by
  have hw2 : AutoEpsilonScheduler.window / 2 = 10 := rfl
  simp only [AutoEpsilonScheduler.onWin, AutoEpsilonScheduler.onEpisodeEnd,
    recordEpisode_notfull s _ hlen, hw2, List.length_append, List.length_singleton]
  have hflen : ((List.filter (fun x => x.win)
      (s.history ++ [AutoEpsilonScheduler.winEpisode])).length : Rat) =
      (s.history.length : Rat) + 1 := by
    have hself : List.filter (fun x => x.win)
        (s.history ++ [AutoEpsilonScheduler.winEpisode]) =
        s.history ++ [AutoEpsilonScheduler.winEpisode] := by
      rw [List.filter_eq_self]
      intro r hr
      rcases List.mem_append.mp hr with h | h
      · exact hwin r h
      · simp only [List.mem_singleton] at h
        rw [h]
        rfl
    rw [hself]
    push_cast [List.length_append]
    norm_num
  have hn : (if s.history.length + 1 = 0 then (1:Rat)
      else ((s.history.length + 1 : Nat) : Rat)) = ((s.history.length + 1 : Nat) : Rat) :=
    if_neg (by omega)
  have hdiv : ((s.history.length : Rat) + 1) / ((s.history.length + 1 : Nat) : Rat) = 1 := by
    push_cast
    exact div_self (by positivity)
  rw [hflen, hn, hdiv]
  have c2 : ((1:Rat) ≤ 1/10 ∧ 10 ≤ s.history.length + 1) = False :=
    eq_false (by rintro ⟨h1, -⟩; norm_num at h1)
  have c1 : ((4:Rat)/5 ≤ 1 ∧ 10 ≤ s.history.length + 1) =
      (10 ≤ s.history.length + 1) := propext (and_iff_right (by norm_num))
  simp only [c1, c2, if_false]

/-- The history after one all-win scheduler step. -/
theorem onWin_history_eval (s : AutoEpsilonScheduler.Scheduler)
    (a : AutoEpsilonScheduler.SchedAgent) (hlen : s.history.length ≤ 19) :
    (AutoEpsilonScheduler.onWin (s, a)).1 =
      ⟨s.gameMode, s.history ++ [AutoEpsilonScheduler.winEpisode]⟩ := by
  simp only [AutoEpsilonScheduler.onWin, AutoEpsilonScheduler.onEpisodeEnd,
    recordEpisode_notfull s _ hlen]

/-- Every scheduler step re-pins `epsilonMin` to at most the current
epsilon. -/
theorem onEpisodeEnd_pins (s : AutoEpsilonScheduler.Scheduler)
    (a : AutoEpsilonScheduler.SchedAgent) (ep : AutoEpsilonScheduler.EpRecord) :
    (AutoEpsilonScheduler.onEpisodeEnd s a ep).2.epsilonMin ≤
      (AutoEpsilonScheduler.onEpisodeEnd s a ep).2.epsilon :=
  jsMin_le_left _ _

/-- Invariant of a run of winning episodes from a fresh scheduler: the
window stays all-win, epsilon stays in [0, initial] and above the
re-pinned floor, and the decay stays in [0.9, initial]. -/
theorem onWin_run_invariant (mode : String) (a0 : AutoEpsilonScheduler.SchedAgent)
    (hε : 0 ≤ a0.epsilon) (hd : 9/10 ≤ a0.epsilonDecay) :
    ∀ n, n ≤ 20 →
      (AutoEpsilonScheduler.onWin^[n] (⟨mode, []⟩, a0)).1.history =
        List.replicate n AutoEpsilonScheduler.winEpisode ∧
      (AutoEpsilonScheduler.onWin^[n] (⟨mode, []⟩, a0)).2.epsilon ≤ a0.epsilon ∧
      0 ≤ (AutoEpsilonScheduler.onWin^[n] (⟨mode, []⟩, a0)).2.epsilon ∧
      (1 ≤ n → (AutoEpsilonScheduler.onWin^[n] (⟨mode, []⟩, a0)).2.epsilonMin ≤
        (AutoEpsilonScheduler.onWin^[n] (⟨mode, []⟩, a0)).2.epsilon) ∧
      9/10 ≤ (AutoEpsilonScheduler.onWin^[n] (⟨mode, []⟩, a0)).2.epsilonDecay ∧
      (AutoEpsilonScheduler.onWin^[n] (⟨mode, []⟩, a0)).2.epsilonDecay ≤ a0.epsilonDecay
  | 0, _ => ⟨by simp, le_refl _, hε, by omega, hd, le_refl _⟩
  | n + 1, hle => by
      obtain ⟨ihh, ihe, ihe0, ihmin, ihd9, ihdd⟩ :=
        onWin_run_invariant mode a0 hε hd n (by omega)
      rcases hpn : AutoEpsilonScheduler.onWin^[n] (⟨mode, []⟩, a0) with ⟨s, a⟩
      rw [hpn] at ihh ihe ihe0 ihmin ihd9 ihdd
      have hlen_n : s.history.length = n := by
        rw [ihh]
        simp
      have hwin : ∀ r ∈ s.history, r.win = true := by
        rw [ihh]
        intro r hr
        rw [List.eq_of_mem_replicate hr]
        rfl
      have hlen : s.history.length ≤ 19 := by omega
      have hstep : AutoEpsilonScheduler.onWin^[n + 1] (⟨mode, []⟩, a0) =
          AutoEpsilonScheduler.onWin (s, a) := by
        rw [Function.iterate_succ_apply', hpn]
      refine ⟨?_, ?_, ?_, ?_, ?_, ?_⟩
      · rw [hstep, onWin_history_eval s a hlen, ihh]
        simp [List.replicate_succ']
      · rw [hstep, onWin_epsilon_eval s a hwin hlen]
        split
        case isTrue hb =>
          have hn1 : 1 ≤ n := by omega
          have hmin := ihmin hn1
          have : jsMax a.epsilonMin (a.epsilon * (9/10)) ≤ a.epsilon :=
            jsMax_le hmin (by linarith)
          linarith
        case isFalse hb => exact ihe
      · rw [hstep, onWin_epsilon_eval s a hwin hlen]
        split
        case isTrue hb =>
          have : a.epsilon * (9/10) ≤ jsMax a.epsilonMin (a.epsilon * (9/10)) :=
            le_jsMax_right _ _
          linarith
        case isFalse hb => exact ihe0
      · intro _
        rw [hstep]
        exact onEpisodeEnd_pins s a _
      · rw [hstep, onWin_decay_eval s a hwin hlen]
        exact clampDecay_ge _
      · rw [hstep, onWin_decay_eval s a hwin hlen]
        split
        case isTrue hb =>
          have h1 : AutoEpsilonScheduler.clampDecay
              (AutoEpsilonScheduler.clampDecay (a.epsilonDecay * (97/100))) ≤
              AutoEpsilonScheduler.clampDecay (a.epsilonDecay * (97/100)) :=
            clampDecay_le (clampDecay_ge _)
          have h2 : AutoEpsilonScheduler.clampDecay (a.epsilonDecay * (97/100)) ≤
              a.epsilonDecay := clampDecay_mul_le ihd9
          linarith
        case isFalse hb =>
          have h1 : AutoEpsilonScheduler.clampDecay a.epsilonDecay ≤
              a.epsilonDecay := clampDecay_le ihd9
          linarith

/-- C9.  For the auto-tune scheduler, feeding 20 consecutive winning
episodes through `onEpisodeEnd` (fresh window; the agent has epsilon at
least 0 and decay at least 0.9, which the agent constructors guarantee)
yields a decay at most the prior decay and an epsilon at most the prior
epsilon; and after every `onEpisodeEnd` call the re-pinned `epsilonMin`
is never above the current epsilon. -/
theorem c9_scheduler_winning_run (mode : String)
    (agent : AutoEpsilonScheduler.SchedAgent)
    (hε : 0 ≤ agent.epsilon) (hd : 9/10 ≤ agent.epsilonDecay) :
    (AutoEpsilonScheduler.onWin^[20] (⟨mode, []⟩, agent)).2.epsilonDecay ≤
      agent.epsilonDecay ∧
    (AutoEpsilonScheduler.onWin^[20] (⟨mode, []⟩, agent)).2.epsilon ≤
      agent.epsilon ∧
    (∀ s a ep, (AutoEpsilonScheduler.onEpisodeEnd s a ep).2.epsilonMin ≤
      (AutoEpsilonScheduler.onEpisodeEnd s a ep).2.epsilon) := by
  obtain ⟨-, he, -, -, -, hdd⟩ :=
    onWin_run_invariant mode agent hε hd 20 (le_refl 20)
  exact ⟨hdd, he, fun s a ep => onEpisodeEnd_pins s a ep⟩

/-- C9 witness: a 20-win run from a fresh classic-mode scheduler with a
concrete agent never raises epsilon above its prior value 9/10. -/
theorem c9_scheduler_winning_run_witness :
    (AutoEpsilonScheduler.onWin^[20]
      (⟨"classic", []⟩, ⟨9/10, 1/100, 99/100⟩)).2.epsilon ≤ 9/10 :=
  (c9_scheduler_winning_run "classic" ⟨9/10, 1/100, 99/100⟩ (by norm_num)
    (by norm_num)).2.1
